import Mathlib

/-!
Verification of the NoPause real-time speech-session pipeline.

This file gives a shallow embedding of the core logic of the repository:

  * the AudioAnalyzer delta-time hysteresis classifier
    (src/audio/speechAnalyzer.js, the class with fixed V1 constants),
  * the ServerTranscriptionProvider chunk-upload retry loop and queue drain,
  * the hybrid transcription engine error-escalation and provider-switch
    logic (hybridTranscriptionEngine.js),
  * the transcript accumulator (transcriptAccumulator.js).

Timestamps are modelled as integers (milliseconds, as produced by
Date.now()) and volumes as rationals.  The JS frame loop throttles to one
processed frame per 33 ms; frames skipped by the throttle return without
touching any state, so the model's step function is applied to the
sequence of processed frames.
-/

namespace NoPause

/-! ## AudioAnalyzer: fixed V1 constants (speechAnalyzer.js lines 11-17) -/

def SPEECH_THRESHOLD : ℚ := 1/100

def SPEECH_OFF_MULTIPLIER : ℚ := 7/10

def HESITATION_MIN_DURATION : ℤ := 1800

def MICRO_PAUSE_IGNORE : ℤ := 300

def SMOOTHING_WINDOW : ℕ := 10

def CALIBRATION_DURATION : ℤ := 1500

/-- The mutable per-session state of the AudioAnalyzer.  Field names match
the JS instance fields.  Hesitation timings are (startOffset, duration)
pairs as pushed in the analyze loop.  The audio-node, recorder and
speech-recognition handles carry no classification state and are omitted. -/
structure AnalyzerState where
  speechOnThreshold : ℚ
  speechOffThreshold : ℚ
  hesitationMinDuration : ℤ
  microPauseFilter : ℤ
  sessionStartTime : ℤ
  lastFrameTime : ℤ
  totalSpeakingTime : ℤ
  totalSilenceTime : ℤ
  hesitationSilenceTime : ℤ
  hesitationCount : ℕ
  currentSilenceStart : Option ℤ
  isSpeaking : Bool
  hasSpokeAtLeastOnce : Bool
  hesitationTimings : List (ℤ × ℤ)
  currentFlowStreakStart : Option ℤ
  longestFlowStreak : ℤ
  frameCount : ℕ
  noiseFloor : ℚ
  volumeSamples : List ℚ
  calibrationSamples : List ℚ
  isCalibrating : Bool
  calibrationStartTime : ℤ
deriving DecidableEq

/-- State immediately after a successful start() at wall-clock time t0
(speechAnalyzer.js lines 95-117): clocks set to t0, all accumulators
reset, calibration active. -/
def initAnalyzerState (t0 : ℤ) : AnalyzerState where
  speechOnThreshold := SPEECH_THRESHOLD
  speechOffThreshold := SPEECH_THRESHOLD * SPEECH_OFF_MULTIPLIER
  hesitationMinDuration := HESITATION_MIN_DURATION
  microPauseFilter := MICRO_PAUSE_IGNORE
  sessionStartTime := t0
  lastFrameTime := t0
  totalSpeakingTime := 0
  totalSilenceTime := 0
  hesitationSilenceTime := 0
  hesitationCount := 0
  currentSilenceStart := none
  isSpeaking := false
  hasSpokeAtLeastOnce := false
  hesitationTimings := []
  currentFlowStreakStart := none
  longestFlowStreak := 0
  frameCount := 0
  noiseFloor := 0
  volumeSamples := []
  calibrationSamples := []
  isCalibrating := true
  calibrationStartTime := t0

/-- Push the fresh rms reading and keep only the last SMOOTHING_WINDOW
entries (speechAnalyzer.js lines 188-191: push then slice(-10) when the
length exceeds the window). -/
def pushWindow (samples : List ℚ) (rms : ℚ) : List ℚ :=
  let vs := samples ++ [rms]
  if SMOOTHING_WINDOW < vs.length then vs.drop (vs.length - SMOOTHING_WINDOW) else vs

/-- The smoothed rms used for classification: the mean of the updated
smoothing window (speechAnalyzer.js line 192). -/
def smoothedOf (s : AnalyzerState) (rms : ℚ) : ℚ :=
  (pushWindow s.volumeSamples rms).sum / ((pushWindow s.volumeSamples rms).length : ℚ)

/-- Payload of an onHesitation callback invocation: the silence-run
duration and the hesitation count passed at the moment of the call. -/
structure HesitationEmit where
  duration : ℤ
  count : ℕ
deriving DecidableEq

/-- One processed frame of the analyze loop (speechAnalyzer.js lines
173-259), at wall-clock time now with raw volume rms.  Returns the new
state together with the onHesitation callback payload, if that callback
fires during this frame.  The visualization / onData block (lines
261-289) reads but does not write classifier state and is omitted. -/
def analyzeStep (s : AnalyzerState) (now : ℤ) (rms : ℚ) : AnalyzerState × Option HesitationEmit :=
  let delta : ℤ := now - s.lastFrameTime
  let volumeSamples : List ℚ := pushWindow s.volumeSamples rms
  let smoothedRms : ℚ := smoothedOf s rms
  let calibrationSamples : List ℚ :=
    if s.isCalibrating then s.calibrationSamples ++ [rms] else s.calibrationSamples
  let calibrationEnds : Bool :=
    s.isCalibrating && decide (CALIBRATION_DURATION ≤ now - s.calibrationStartTime)
  let isCalibrating : Bool := s.isCalibrating && !calibrationEnds
  let noiseFloor : ℚ :=
    if calibrationEnds then calibrationSamples.sum / (calibrationSamples.length : ℚ)
    else s.noiseFloor
  let wasSpeaking : Bool := s.isSpeaking
  let isSpeaking : Bool :=
    if wasSpeaking then decide (s.speechOffThreshold < smoothedRms)
    else decide (s.speechOnThreshold < smoothedRms)
  let totalSpeakingTime : ℤ :=
    if isSpeaking then s.totalSpeakingTime + delta else s.totalSpeakingTime
  let totalSilenceTime : ℤ :=
    if isSpeaking then s.totalSilenceTime else s.totalSilenceTime + delta
  let hasSpokeAtLeastOnce : Bool := s.hasSpokeAtLeastOnce || isSpeaking
  let currentFlowStreakStart : Option ℤ :=
    if isSpeaking then (if wasSpeaking then s.currentFlowStreakStart else some now)
    else (if wasSpeaking && s.currentFlowStreakStart.isSome then none
          else s.currentFlowStreakStart)
  let longestFlowStreak : ℤ :=
    if !isSpeaking && wasSpeaking then
      match s.currentFlowStreakStart with
      | some t => max s.longestFlowStreak (now - t)
      | none => s.longestFlowStreak
    else s.longestFlowStreak
  let hesActive : Bool := !isCalibrating && hasSpokeAtLeastOnce
  let hesEvent : Option (ℤ × ℤ) :=
    if hesActive && (isSpeaking && !wasSpeaking) then
      match s.currentSilenceStart with
      | some cs =>
        if s.microPauseFilter ≤ now - cs ∧ s.hesitationMinDuration ≤ now - cs then
          some (cs - s.sessionStartTime, now - cs)
        else none
      | none => none
    else none
  let currentSilenceStart : Option ℤ :=
    if hesActive then
      if isSpeaking then (if wasSpeaking then s.currentSilenceStart else none)
      else (if wasSpeaking then some now else s.currentSilenceStart)
    else s.currentSilenceStart
  let hesitationCount : ℕ := s.hesitationCount + (if hesEvent.isSome then 1 else 0)
  let hesitationSilenceTime : ℤ := s.hesitationSilenceTime + ((hesEvent.map Prod.snd).getD 0)
  let hesitationTimings : List (ℤ × ℤ) := s.hesitationTimings ++ hesEvent.toList
  let emit : Option HesitationEmit := hesEvent.map (fun e => ⟨e.2, s.hesitationCount + 1⟩)
  (⟨s.speechOnThreshold, s.speechOffThreshold, s.hesitationMinDuration, s.microPauseFilter,
    s.sessionStartTime, now, totalSpeakingTime, totalSilenceTime, hesitationSilenceTime,
    hesitationCount, currentSilenceStart, isSpeaking, hasSpokeAtLeastOnce, hesitationTimings,
    currentFlowStreakStart, longestFlowStreak, s.frameCount + 1, noiseFloor, volumeSamples,
    calibrationSamples, isCalibrating, s.calibrationStartTime⟩, emit)

/-- The state component of one processed frame. -/
def stateStep (s : AnalyzerState) (p : ℤ × ℚ) : AnalyzerState :=
  (analyzeStep s p.1 p.2).1

/-- Run the analyze loop over a sequence of processed frames, each a
(timestamp, rms) pair. -/
def runSamples (s : AnalyzerState) (samples : List (ℤ × ℚ)) : AnalyzerState :=
  samples.foldl stateStep s

/-- The timestamp of the last processed frame (or t0 when none). -/
def lastSampleTime (t0 : ℤ) (samples : List (ℤ × ℚ)) : ℤ :=
  samples.foldl (fun _ p => p.1) t0

/-- The timing part of stop() (speechAnalyzer.js lines 294-310): the final
delta is credited to the side selected by the current classification, and
a still-open flow streak is closed.  Trailing silence is not counted as a
hesitation.  The transcript / recorder shutdown that follows touches no
timing state. -/
def analyzerStop (s : AnalyzerState) (now : ℤ) : AnalyzerState :=
  if s.isSpeaking then
    { s with
      totalSpeakingTime := s.totalSpeakingTime + (now - s.lastFrameTime),
      longestFlowStreak :=
        match s.currentFlowStreakStart with
        | some t => max s.longestFlowStreak (now - t)
        | none => s.longestFlowStreak }
  else
    { s with totalSilenceTime := s.totalSilenceTime + (now - s.lastFrameTime) }

/-- A processed-frame sequence driving the classifier from a fresh session
into the speaking state (one loud frame) and then feeding nine frames at
exactly the off-threshold volume 7/1000: while the loud frame remains in
the smoothing window the mean stays above the off threshold.  The next
frame at 7/1000 pushes the loud frame out of the window, making the
smoothed volume exactly 7/1000. -/
def oscillationSamples : List (ℤ × ℚ) :=
  [(33, 1), (66, 7/1000), (99, 7/1000), (132, 7/1000), (165, 7/1000), (198, 7/1000),
   (231, 7/1000), (264, 7/1000), (297, 7/1000), (330, 7/1000)]

/-- A mid-session state: calibration over, speech has occurred, currently
silent with an open silence run that started at t = 2000 ms. -/
def hesWitnessState : AnalyzerState :=
  { initAnalyzerState 0 with
    isCalibrating := false,
    hasSpokeAtLeastOnce := true,
    currentSilenceStart := some 2000 }

/-- A state in the speaking classification with an empty smoothing window
(used to exercise the off-threshold boundary of the hysteresis step). -/
def speakingBoundaryState : AnalyzerState :=
  { initAnalyzerState 0 with isSpeaking := true }

/-! ## ServerTranscriptionProvider: chunk upload with bounded retries
(serverTranscriptionProvider.js). -/

/-- Observable outcome of uploading one chunk: whether a fetch attempt
eventually succeeded, how many fetch attempts were made, the sleeps
performed between attempts (ms, in order), how many recoverable
server-upload-failed errors were emitted, and on how many attempts the
response segments were forwarded to onSegment. -/
structure UploadOutcome where
  success : Bool
  attempts : ℕ
  backoffs : List ℤ
  uploadErrors : ℕ
  segmentEmissions : ℕ
deriving DecidableEq

/-- The retry loop of ServerTranscriptionProvider uploadChunk from a given
attempt index with the given number of further attempts still allowed
(the JS loop runs attempt = 0 .. maxUploadRetries inclusive).  The fetch
outcome is injected as the oracle ok, mirroring the injectable fetchImpl:
on success the response segments are emitted once and the loop returns;
on failure of the last allowed attempt one recoverable error is emitted
and the chunk is dropped; otherwise the loop sleeps (attempt+1) * 400 ms
and retries. -/
def uploadFrom (ok : ℕ → Bool) (attempt : ℕ) : ℕ → UploadOutcome
  | 0 => if ok attempt then ⟨true, 1, [], 0, 1⟩ else ⟨false, 1, [], 1, 0⟩
  | remaining + 1 =>
    if ok attempt then ⟨true, 1, [], 0, 1⟩
    else
      let r := uploadFrom ok (attempt + 1) remaining
      ⟨r.success, r.attempts + 1, ((attempt : ℤ) + 1) * 400 :: r.backoffs,
        r.uploadErrors, r.segmentEmissions⟩

/-- uploadChunk: the full retry loop, starting at attempt 0 with
maxUploadRetries further attempts allowed after the first. -/
def uploadChunk (maxUploadRetries : ℕ) (ok : ℕ → Bool) : UploadOutcome :=
  uploadFrom ok 0 maxUploadRetries

/-- A queued chunk: its monotonic sequence number and the fetch oracle for
its attempts. -/
structure ChunkItem where
  sequence : ℕ
  ok : ℕ → Bool

/-- drainQueue: chunks are shifted from the front of the queue and
uploaded strictly one at a time, in order; a chunk that exhausts its
retries is dropped and the loop moves on to the next chunk.  Returns the
(sequence, success) outcomes in processing order. -/
def drainQueue (maxUploadRetries : ℕ) : List ChunkItem → List (ℕ × Bool)
  | [] => []
  | item :: rest =>
    (item.sequence, (uploadChunk maxUploadRetries item.ok).success)
      :: drainQueue maxUploadRetries rest

/-- Scenario D fetch oracle: attempts 0 and 1 fail, attempt 2 succeeds. -/
def scenarioD_ok (attempt : ℕ) : Bool := decide (attempt = 2)

/-- A fetch oracle whose attempts all fail. -/
def alwaysFail (_ : ℕ) : Bool := false

/-- A small queue with mixed outcomes and increasing sequence numbers. -/
def demoQueue : List ChunkItem :=
  [⟨0, scenarioD_ok⟩, ⟨1, alwaysFail⟩, ⟨2, fun _ => true⟩]

/-! ## Hybrid transcription engine (hybridTranscriptionEngine.js).

The engine is single-threaded and every provider switch awaits the
outgoing provider stop() before the incoming provider is created and
started.  Each engine operation is modelled as a function from a state
to the ordered list of observable intermediate states it passes through
(one entry per atomic mutation of the provider/activity state) together
with the final state; the exclusivity claim is checked on every state of
every trace. -/

inductive ProviderType
  | idle
  | browser
  | server
deriving DecidableEq

/-- Provider error codes as classified by the engine onError handler:
the two permission-denied codes, and everything else (which the browser
provider reports as recoverable). -/
inductive ErrCode
  | notAllowed
  | serviceNotAllowed
  | other
deriving DecidableEq

/-- Engine-level state: the current providerType and counters of
hybridTranscriptionEngine.js, plus the active flags of the two provider
implementations (BrowserTranscriptionProvider.active and
ServerTranscriptionProvider.active) and a count of fallback_switch events
(logged exactly once per actual switch). -/
structure EngineState where
  providerType : ProviderType
  browserErrorCount : ℕ
  browserRestartCount : ℕ
  stoppedManually : Bool
  fallbackSwitches : ℕ
  primaryActive : Bool
  fallbackActive : Bool
deriving DecidableEq

def initEngineState : EngineState :=
  ⟨ProviderType.idle, 0, 0, false, 0, false, false⟩

/-- closeProvider: awaits the current provider stop() (which marks that
provider inactive before returning), then clears the provider and sets
providerType to idle. -/
def closeProviderRun (s : EngineState) : List EngineState × EngineState :=
  let s1 :=
    match s.providerType with
    | ProviderType.browser => { s with primaryActive := false }
    | ProviderType.server => { s with fallbackActive := false }
    | ProviderType.idle => s
  let s2 := { s1 with providerType := ProviderType.idle }
  ([s1, s2], s2)

/-- startBrowser: providerType is set first, then the provider is created
and started; ok tells whether the underlying recognition started (its
onstart marks the provider active). -/
def startBrowserRun (ok : Bool) (s : EngineState) : List EngineState × EngineState :=
  let s1 := { s with providerType := ProviderType.browser }
  let s2 := if ok then { s1 with primaryActive := true } else s1
  ([s1, s2], s2)

/-- startServer: same shape for the fallback provider. -/
def startServerRun (ok : Bool) (s : EngineState) : List EngineState × EngineState :=
  let s1 := { s with providerType := ProviderType.server }
  let s2 := if ok then { s1 with fallbackActive := true } else s1
  ([s1, s2], s2)

/-- switchToServer: a no-op when already on the server provider;
otherwise logs fallback_switch, fully closes the current provider and
only then starts the fallback. -/
def switchToServerRun (serverOk : Bool) (s : EngineState) : List EngineState × EngineState :=
  if s.providerType = ProviderType.server then ([s], s)
  else
    let s0 := { s with fallbackSwitches := s.fallbackSwitches + 1 }
    let c := closeProviderRun s0
    let sv := startServerRun serverOk c.2
    (s0 :: c.1 ++ sv.1, sv.2)

/-- The engine onError callback: errors are ignored unless the browser
provider is current; a permission-denied code triggers an immediate
switch; any other code increments browserErrorCount and a switch happens
once the count reaches maxBrowserErrors. -/
def handleErrorRun (maxBrowserErrors : ℕ) (serverOk : Bool) (code : ErrCode) (s : EngineState) :
    List EngineState × EngineState :=
  if s.providerType ≠ ProviderType.browser then ([s], s)
  else if code = ErrCode.notAllowed ∨ code = ErrCode.serviceNotAllowed then
    switchToServerRun serverOk s
  else
    let s1 := { s with browserErrorCount := s.browserErrorCount + 1 }
    if maxBrowserErrors ≤ s1.browserErrorCount then
      let sw := switchToServerRun serverOk s1
      (s1 :: sw.1, sw.2)
    else ([s1], s1)

/-- The engine onEnd callback for the browser provider: the provider has
already marked itself inactive; if the end was not a manual stop and the
restart budget is not exhausted, the same provider is restarted after
the delay (restartOk tells whether the restart took), otherwise the
engine switches to the fallback. -/
def handleBrowserEndRun (maxBrowserRestarts : ℕ) (restartOk serverOk : Bool) (s : EngineState) :
    List EngineState × EngineState :=
  let s0 := { s with primaryActive := false }
  if s0.providerType ≠ ProviderType.browser ∨ s0.stoppedManually = true then ([s0], s0)
  else if maxBrowserRestarts ≤ s0.browserRestartCount then
    let sw := switchToServerRun serverOk s0
    (s0 :: sw.1, sw.2)
  else
    let s1 := { s0 with browserRestartCount := s0.browserRestartCount + 1 }
    let s2 := if restartOk then { s1 with primaryActive := true } else s1
    ([s0, s1, s2], s2)

/-- The engine start(): prefers the browser provider when supported; a
failed browser start is closed before the server fallback is started. -/
def engineStartRun (preferBrowser browserSupported browserOk allowServerFallback serverOk : Bool)
    (s : EngineState) : List EngineState × EngineState :=
  let s0 := { s with stoppedManually := false }
  if preferBrowser && browserSupported then
    let b := startBrowserRun browserOk s0
    if browserOk then (s0 :: b.1, b.2)
    else
      let c := closeProviderRun b.2
      if allowServerFallback then
        let sv := startServerRun serverOk c.2
        (s0 :: b.1 ++ c.1 ++ sv.1, sv.2)
      else (s0 :: b.1 ++ c.1, c.2)
  else if allowServerFallback then
    let sv := startServerRun serverOk s0
    (s0 :: sv.1, sv.2)
  else ([s0], s0)

/-- The engine stop(): marks the stop as manual then closes the current
provider. -/
def engineStopRun (s : EngineState) : List EngineState × EngineState :=
  let s0 := { s with stoppedManually := true }
  let c := closeProviderRun s0
  (s0 :: c.1, c.2)

/-- The events that drive the engine: the public start/stop/switch calls
and the provider callbacks, each carrying the outcomes of the external
operations it performs. -/
inductive EngineCmd
  | engineStart (preferBrowser browserSupported browserOk allowServerFallback serverOk : Bool)
  | providerError (code : ErrCode) (serverOk : Bool)
  | browserEnded (restartOk serverOk : Bool)
  | switchServer (serverOk : Bool)
  | engineStop

structure EngineConfig where
  maxBrowserErrors : ℕ
  maxBrowserRestarts : ℕ

def execCmd (cfg : EngineConfig) (s : EngineState) : EngineCmd → List EngineState × EngineState
  | EngineCmd.engineStart pb bs bo asf so => engineStartRun pb bs bo asf so s
  | EngineCmd.providerError code so => handleErrorRun cfg.maxBrowserErrors so code s
  | EngineCmd.browserEnded ro so => handleBrowserEndRun cfg.maxBrowserRestarts ro so s
  | EngineCmd.switchServer so => switchToServerRun so s
  | EngineCmd.engineStop => engineStopRun s

/-- Run a command sequence, concatenating the traces of observable
states. -/
def runCmds (cfg : EngineConfig) : EngineState → List EngineCmd → List EngineState × EngineState
  | s, [] => ([], s)
  | s, c :: rest =>
    let r := execCmd cfg s c
    let rr := runCmds cfg r.2 rest
    (r.1 ++ rr.1, rr.2)

/-- The engine lifecycle discipline observed by its callers
(useMobileSpeechRecognition / PracticePage): start() is only invoked
while no provider is running (the callers guard on isListening, which
mirrors providerType being idle). -/
def startsGuarded (cfg : EngineConfig) : EngineState → List EngineCmd → Bool
  | _, [] => true
  | s, c :: rest =>
    (match c with
     | EngineCmd.engineStart _ _ _ _ _ => decide (s.providerType = ProviderType.idle)
     | _ => true)
    && startsGuarded cfg (execCmd cfg s c).2 rest

/-- State after a successful browser start from a fresh engine. -/
def browserReadyState : EngineState :=
  ⟨ProviderType.browser, 0, 0, false, 0, true, false⟩

/-- The strengthened engine invariant: a provider is active only while it
is the current provider (so at most one can ever be active). -/
def engineInvB (s : EngineState) : Bool :=
  (!s.primaryActive || decide (s.providerType = ProviderType.browser))
  && (!s.fallbackActive || decide (s.providerType = ProviderType.server))

/-- A demonstration command sequence: start on the browser provider, hit
a permission-denied error (immediate switch to the fallback), then stop. -/
def demoCmds : List EngineCmd :=
  [EngineCmd.engineStart true true true true true,
   EngineCmd.providerError ErrCode.notAllowed true,
   EngineCmd.engineStop]

/-- Per-error final-state semantics of the engine onError callback, with
the fallback start succeeding. -/
def runErrors (maxBrowserErrors : ℕ) (s : EngineState) (codes : List ErrCode) : EngineState :=
  codes.foldl (fun st c => (handleErrorRun maxBrowserErrors true c st).2) s

/-! ## Transcript accumulator (transcriptAccumulator.js).

String normalization is embedded over character lists with the JS
semantics: trim drops leading/trailing whitespace, the whitespace runs
are collapsed to single spaces, and letters are lower-cased. -/

/-- Math.round: round half toward positive infinity. -/
def jsRound (q : ℚ) : ℤ := ⌊q + 1/2⌋

/-- Drop leading and trailing whitespace (JS String.prototype.trim). -/
def trimChars (l : List Char) : List Char :=
  ((l.dropWhile Char.isWhitespace).reverse.dropWhile Char.isWhitespace).reverse

def jsTrim (s : String) : String := String.mk (trimChars s.toList)

/-- Collapse every maximal whitespace run to a single space (the
replace of the whitespace-run pattern with one space); the flag records
whether the previous character was part of a whitespace run. -/
def collapseWsAux : Bool → List Char → List Char
  | _, [] => []
  | prevWs, c :: rest =>
    if c.isWhitespace then
      (if prevWs then collapseWsAux true rest else ' ' :: collapseWsAux true rest)
    else c :: collapseWsAux false rest

def jsToLower (s : String) : String := String.mk (s.toList.map Char.toLower)

/-- normalizeText: trim, collapse whitespace runs to single spaces,
lower-case. -/
def normalizeText (value : String) : String :=
  jsToLower (String.mk (collapseWsAux false (jsTrim value).toList))

/-- TranscriptSegment as carried through the accumulator; startMs/endMs
are optional and possibly fractional (server timestamps). -/
structure TranscriptSegment where
  id : String
  text : String
  startMs : Option ℚ
  endMs : Option ℚ
  isFinal : Bool
  source : String
deriving DecidableEq

/-- The dedup key of a final segment: its source, the rounded start/end
offsets (absent offsets keyed as the marker value), and the normalized
text.  The JS code serializes these four components into the string
source, bar, start, bar, end, bar, text; the components determine that
string, so equal components give exactly the duplicate-string case. -/
structure DedupKey where
  sourceKey : String
  startKey : Option ℤ
  endKey : Option ℤ
  textKey : String
deriving DecidableEq

def dedupeKey (seg : TranscriptSegment) : DedupKey :=
  ⟨seg.source, seg.startMs.map jsRound, seg.endMs.map jsRound, normalizeText seg.text⟩

/-- Accumulator state: accepted final segments in order, the set of seen
dedup keys, and at most one pending partial segment. -/
structure AccumulatorState where
  finalSegments : List TranscriptSegment
  finalKeys : List DedupKey
  partialSegment : Option TranscriptSegment
deriving DecidableEq

def emptyAccumulator : AccumulatorState := ⟨[], [], none⟩

/-- addSegment: empty (or whitespace-only) text is rejected; a final
segment is accepted unless its dedup key was already seen, and
accepting it stores the trimmed text, records the key and discards the
pending partial; a non-final segment replaces the pending partial
wholesale.  Returns the new state and whether the call changed visible
output. -/
def addSegment (a : AccumulatorState) (seg : TranscriptSegment) : AccumulatorState × Bool :=
  if jsTrim seg.text = "" then (a, false)
  else if seg.isFinal then
    let key := dedupeKey seg
    if key ∈ a.finalKeys then (a, false)
    else
      ({ finalSegments := a.finalSegments ++ [{ seg with text := jsTrim seg.text }],
         finalKeys := a.finalKeys ++ [key],
         partialSegment := none }, true)
  else
    ({ a with partialSegment := some { seg with text := jsTrim seg.text } }, true)

def getFinalText (a : AccumulatorState) : String :=
  jsTrim (String.intercalate " " (a.finalSegments.map (fun seg => seg.text)))

def getPartialText (a : AccumulatorState) : String :=
  match a.partialSegment with
  | some p => p.text
  | none => ""

def getDisplayText (a : AccumulatorState) : String :=
  if getFinalText a = "" then getPartialText a
  else if getPartialText a = "" then getFinalText a
  else jsTrim (getFinalText a ++ " " ++ getPartialText a)

/-- Two final segments with distinct ids and raw texts but identical
dedup keys (same source, same rounded offsets, same normalized text). -/
def segA : TranscriptSegment :=
  ⟨"a1", "Hello  world", some 0, some 1200, true, "browser"⟩

def segB : TranscriptSegment :=
  ⟨"b2", " hello WORLD ", some (1/10), some 1200, true, "browser"⟩

def segP : TranscriptSegment :=
  ⟨"p1", "still talking", none, none, false, "browser"⟩

/-- An accumulator currently holding a pending partial segment. -/
def partialState : AccumulatorState := (addSegment emptyAccumulator segP).1

end NoPause

namespace NoPause

/-! ## Helper lemmas for the analyzer -/

theorem stateStep_totals (s : AnalyzerState) (p : ℤ × ℚ) :
    (stateStep s p).totalSpeakingTime + (stateStep s p).totalSilenceTime
      = s.totalSpeakingTime + s.totalSilenceTime + (p.1 - s.lastFrameTime)
    ∧ (stateStep s p).lastFrameTime = p.1
    ∧ (stateStep s p).sessionStartTime = s.sessionStartTime := by
  obtain ⟨now, rms⟩ := p
  refine ⟨?_, rfl, rfl⟩
  simp only [stateStep, analyzeStep]
  split_ifs <;> ring

theorem runSamples_sum (samples : List (ℤ × ℚ)) : ∀ s : AnalyzerState,
    (runSamples s samples).totalSpeakingTime + (runSamples s samples).totalSilenceTime
        - (runSamples s samples).lastFrameTime
      = s.totalSpeakingTime + s.totalSilenceTime - s.lastFrameTime
    ∧ (runSamples s samples).sessionStartTime = s.sessionStartTime := by
  induction samples with
  | nil => intro s; exact ⟨rfl, rfl⟩
  | cons p rest ih =>
    intro s
    have hstep := stateStep_totals s p
    have hrest := ih (stateStep s p)
    simp only [runSamples, List.foldl_cons] at *
    constructor
    · rw [hrest.1, hstep.1, hstep.2.1]; ring
    · rw [hrest.2, hstep.2.2]

theorem runSamples_lastFrame (samples : List (ℤ × ℚ)) : ∀ s : AnalyzerState,
    (runSamples s samples).lastFrameTime = lastSampleTime s.lastFrameTime samples := by
  induction samples with
  | nil => intro s; rfl
  | cons p rest ih =>
    intro s
    simp only [runSamples, List.foldl_cons, lastSampleTime] at *
    rw [ih (stateStep s p)]
    have : (stateStep s p).lastFrameTime = p.1 := (stateStep_totals s p).2.1
    rw [this]

theorem analyzerStop_sum (s : AnalyzerState) (now : ℤ) :
    (analyzerStop s now).totalSpeakingTime + (analyzerStop s now).totalSilenceTime
      = s.totalSpeakingTime + s.totalSilenceTime + (now - s.lastFrameTime) := by
  simp only [analyzerStop]
  split <;> simp <;> ring

/-! ## C1: delta-time accounting sum invariant -/

/-- C1.  Between start() and stop(), the accumulated speaking plus silence
totals equal the elapsed session time: after any sequence of processed
frames, totalSpeakingTime + totalSilenceTime equals lastFrameTime minus
the session start exactly (so the identity holds at every sample
boundary, each per-frame delta being credited to exactly one of the two
totals), lastFrameTime is the time of the last processed frame, and
stop() adds the final delta, making the totals sum to the exact elapsed
time stopTime - t0.  The claimed one-sample-period rounding slack is not
needed: the identity is exact. -/
theorem timeAccounting_sum_invariant (t0 : ℤ) (samples : List (ℤ × ℚ)) (stopTime : ℤ) :
    ((runSamples (initAnalyzerState t0) samples).totalSpeakingTime
        + (runSamples (initAnalyzerState t0) samples).totalSilenceTime
      = (runSamples (initAnalyzerState t0) samples).lastFrameTime - t0)
    ∧ ((runSamples (initAnalyzerState t0) samples).lastFrameTime = lastSampleTime t0 samples)
    ∧ ((analyzerStop (runSamples (initAnalyzerState t0) samples) stopTime).totalSpeakingTime
        + (analyzerStop (runSamples (initAnalyzerState t0) samples) stopTime).totalSilenceTime
      = stopTime - t0) := by
  have hrun := runSamples_sum samples (initAnalyzerState t0)
  have hsum : (runSamples (initAnalyzerState t0) samples).totalSpeakingTime
      + (runSamples (initAnalyzerState t0) samples).totalSilenceTime
      = (runSamples (initAnalyzerState t0) samples).lastFrameTime - t0 := by
    have h := hrun.1
    have h1 : (initAnalyzerState t0).totalSpeakingTime = 0 := rfl
    have h2 : (initAnalyzerState t0).totalSilenceTime = 0 := rfl
    have h3 : (initAnalyzerState t0).lastFrameTime = t0 := rfl
    omega
  refine ⟨hsum, ?_, ?_⟩
  · have h := runSamples_lastFrame samples (initAnalyzerState t0)
    have h3 : (initAnalyzerState t0).lastFrameTime = t0 := rfl
    rw [h3] at h
    exact h
  · have hstop := analyzerStop_sum (runSamples (initAnalyzerState t0) samples) stopTime
    omega

/-! ## Helper lemmas: smoothing-window means -/

theorem list_mul_lt_sum (a : ℚ) : ∀ l : List ℚ, (∀ x ∈ l, a < x) → l ≠ [] →
    (l.length : ℚ) * a < l.sum := by
  intro l
  induction l with
  | nil => intro _ h; exact absurd rfl h
  | cons x xs ih =>
    intro h _
    have hx : a < x := h x (List.mem_cons_self x xs)
    rcases eq_or_ne xs [] with hxs | hxs
    · subst hxs; simpa using hx
    · have hxs' := ih (fun y hy => h y (List.mem_cons_of_mem x hy)) hxs
      simp only [List.sum_cons, List.length_cons]
      push_cast
      nlinarith

theorem list_sum_le_mul (b : ℚ) : ∀ l : List ℚ, (∀ x ∈ l, x ≤ b) →
    l.sum ≤ (l.length : ℚ) * b := by
  intro l
  induction l with
  | nil => intro _; simp
  | cons x xs ih =>
    intro h
    have hx : x ≤ b := h x (List.mem_cons_self x xs)
    have hxs := ih (fun y hy => h y (List.mem_cons_of_mem x hy))
    simp only [List.sum_cons, List.length_cons]
    push_cast
    nlinarith

theorem pushWindow_length_pos (l : List ℚ) (r : ℚ) : 0 < (pushWindow l r).length := by
  simp only [pushWindow]
  split
  · rename_i h
    rw [List.length_drop]
    simp only [SMOOTHING_WINDOW] at h ⊢
    omega
  · simp

theorem mem_pushWindow (l : List ℚ) (r : ℚ) (x : ℚ) (hx : x ∈ pushWindow l r) :
    x ∈ l ∨ x = r := by
  simp only [pushWindow] at hx
  split at hx
  · have := List.mem_of_mem_drop hx
    rcases List.mem_append.1 this with h | h
    · exact Or.inl h
    · exact Or.inr (List.mem_singleton.1 h)
  · rcases List.mem_append.1 hx with h | h
    · exact Or.inl h
    · exact Or.inr (List.mem_singleton.1 h)

theorem lt_smoothedOf (s : AnalyzerState) (rms a : ℚ)
    (hbuf : ∀ v ∈ s.volumeSamples, a < v) (hr : a < rms) :
    a < smoothedOf s rms := by
  have hlen := pushWindow_length_pos s.volumeSamples rms
  have hlenQ : (0 : ℚ) < ((pushWindow s.volumeSamples rms).length : ℚ) := by
    exact_mod_cast hlen
  have hmem : ∀ x ∈ pushWindow s.volumeSamples rms, a < x := by
    intro x hx
    rcases mem_pushWindow s.volumeSamples rms x hx with h | h
    · exact hbuf x h
    · exact h ▸ hr
  have hne : pushWindow s.volumeSamples rms ≠ [] := by
    intro hcon
    rw [hcon] at hlen
    simp at hlen
  have hsum := list_mul_lt_sum a (pushWindow s.volumeSamples rms) hmem hne
  rw [smoothedOf, lt_div_iff₀ hlenQ]
  linarith

theorem smoothedOf_le (s : AnalyzerState) (rms b : ℚ)
    (hbuf : ∀ v ∈ s.volumeSamples, v ≤ b) (hr : rms ≤ b) :
    smoothedOf s rms ≤ b := by
  have hlen := pushWindow_length_pos s.volumeSamples rms
  have hlenQ : (0 : ℚ) < ((pushWindow s.volumeSamples rms).length : ℚ) := by
    exact_mod_cast hlen
  have hmem : ∀ x ∈ pushWindow s.volumeSamples rms, x ≤ b := by
    intro x hx
    rcases mem_pushWindow s.volumeSamples rms x hx with h | h
    · exact hbuf x h
    · exact h ▸ hr
  have hsum := list_sum_le_mul b (pushWindow s.volumeSamples rms) hmem
  rw [smoothedOf, div_le_iff₀ hlenQ]
  linarith

/-! ## Helper lemmas: the classification part of one frame -/

theorem stateStep_isSpeaking (s : AnalyzerState) (now : ℤ) (rms : ℚ) :
    (stateStep s (now, rms)).isSpeaking
      = (if s.isSpeaking then decide (s.speechOffThreshold < smoothedOf s rms)
         else decide (s.speechOnThreshold < smoothedOf s rms)) := rfl

theorem stateStep_thresholds (s : AnalyzerState) (now : ℤ) (rms : ℚ) :
    (stateStep s (now, rms)).speechOnThreshold = s.speechOnThreshold
    ∧ (stateStep s (now, rms)).speechOffThreshold = s.speechOffThreshold := ⟨rfl, rfl⟩

theorem stateStep_volumeSamples (s : AnalyzerState) (now : ℤ) (rms : ℚ) :
    (stateStep s (now, rms)).volumeSamples = pushWindow s.volumeSamples rms := rfl

theorem stateStep_band (offTh onTh : ℚ) (s : AnalyzerState) (p : ℤ × ℚ)
    (hth : s.speechOffThreshold = offTh ∧ s.speechOnThreshold = onTh)
    (hbuf : ∀ v ∈ s.volumeSamples, offTh < v ∧ v ≤ onTh)
    (hp : offTh < p.2 ∧ p.2 ≤ onTh) :
    (stateStep s p).isSpeaking = s.isSpeaking
    ∧ ((stateStep s p).speechOffThreshold = offTh ∧ (stateStep s p).speechOnThreshold = onTh)
    ∧ (∀ v ∈ (stateStep s p).volumeSamples, offTh < v ∧ v ≤ onTh) := by
  obtain ⟨now, rms⟩ := p
  have hlow : offTh < smoothedOf s rms :=
    lt_smoothedOf s rms offTh (fun v hv => (hbuf v hv).1) hp.1
  have hhigh : smoothedOf s rms ≤ onTh :=
    smoothedOf_le s rms onTh (fun v hv => (hbuf v hv).2) hp.2
  refine ⟨?_, ⟨hth.1, hth.2⟩, ?_⟩
  · rw [stateStep_isSpeaking, hth.1, hth.2]
    cases hs : s.isSpeaking
    · simp [not_lt, hhigh]
    · simp [hlow]
  · intro v hv
    rw [stateStep_volumeSamples] at hv
    rcases mem_pushWindow s.volumeSamples rms v hv with h | h
    · exact hbuf v h
    · exact h ▸ hp

theorem runSamples_band (offTh onTh : ℚ) : ∀ (samples : List (ℤ × ℚ)) (s : AnalyzerState),
    (s.speechOffThreshold = offTh ∧ s.speechOnThreshold = onTh) →
    (∀ v ∈ s.volumeSamples, offTh < v ∧ v ≤ onTh) →
    (∀ p ∈ samples, offTh < p.2 ∧ p.2 ≤ onTh) →
    (runSamples s samples).isSpeaking = s.isSpeaking := by
  intro samples
  induction samples with
  | nil => intro s _ _ _; rfl
  | cons p rest ih =>
    intro s hth hbuf hps
    have hstep := stateStep_band offTh onTh s p hth hbuf (hps p (List.mem_cons_self p rest))
    have hrest := ih (stateStep s p) hstep.2.1 hstep.2.2
      (fun q hq => hps q (List.mem_cons_of_mem p hq))
    simp only [runSamples, List.foldl_cons] at hrest ⊢
    rw [hrest, hstep.1]

/-! ## C2: hysteresis -/

/-- C2 (amended).  The per-sample step is hysteretic, with the boundary at
the off threshold included on the silent side: a speaking state is
re-classified silent exactly when the smoothed volume drops to or below
T_off (not only when it drops strictly below it), a silent state becomes
speaking exactly when the smoothed volume strictly exceeds T_on, the
session thresholds satisfy T_off = T_on * 0.7, and a sample sequence
whose volumes stay strictly above T_off and at most T_on never toggles
the classified state at any prefix. -/
theorem hysteresis_step_characterization :
    (∀ (s : AnalyzerState) (now : ℤ) (rms : ℚ), s.isSpeaking = true →
      ((stateStep s (now, rms)).isSpeaking = false ↔ smoothedOf s rms ≤ s.speechOffThreshold))
    ∧ (∀ (s : AnalyzerState) (now : ℤ) (rms : ℚ), s.isSpeaking = false →
      ((stateStep s (now, rms)).isSpeaking = true ↔ s.speechOnThreshold < smoothedOf s rms))
    ∧ (∀ t0 : ℤ, (initAnalyzerState t0).speechOffThreshold
        = (initAnalyzerState t0).speechOnThreshold * (7/10))
    ∧ (∀ (s : AnalyzerState) (samples : List (ℤ × ℚ)),
        (∀ v ∈ s.volumeSamples, s.speechOffThreshold < v ∧ v ≤ s.speechOnThreshold) →
        (∀ p ∈ samples, s.speechOffThreshold < p.2 ∧ p.2 ≤ s.speechOnThreshold) →
        ∀ n : ℕ, (runSamples s (samples.take n)).isSpeaking = s.isSpeaking) := by
  refine ⟨?_, ?_, ?_, ?_⟩
  · intro s now rms hs
    rw [stateStep_isSpeaking]
    simp [hs, not_lt]
  · intro s now rms hs
    rw [stateStep_isSpeaking]
    simp [hs]
  · intro t0
    rfl
  · intro s samples hbuf hps n
    exact runSamples_band s.speechOffThreshold s.speechOnThreshold (samples.take n) s
      ⟨rfl, rfl⟩ hbuf (fun p hp => hps p (List.take_subset n samples hp))

/-- C2 counterexample.  Driving a fresh session into the speaking state
and then feeding frames at exactly the off-threshold volume 7/1000: at
the frame where the smoothed volume equals T_off exactly (it never drops
strictly below T_off), the state is nevertheless re-classified silent.
This refutes the claim that a speaking state remains speaking unless the
smoothed volume drops below T_off. -/
theorem hysteresis_claim_counterexample :
    (runSamples (initAnalyzerState 0) oscillationSamples).isSpeaking = true
    ∧ smoothedOf (runSamples (initAnalyzerState 0) oscillationSamples) (7/1000)
        = (runSamples (initAnalyzerState 0) oscillationSamples).speechOffThreshold
    ∧ (stateStep (runSamples (initAnalyzerState 0) oscillationSamples) (363, 7/1000)).isSpeaking
        = false := by
  norm_num [runSamples, oscillationSamples, initAnalyzerState, stateStep, analyzeStep,
    smoothedOf, pushWindow, SPEECH_THRESHOLD, SPEECH_OFF_MULTIPLIER, SMOOTHING_WINDOW,
    CALIBRATION_DURATION, List.foldl]

theorem hysteresis_step_characterization_witness :
    (smoothedOf speakingBoundaryState (7/1000) ≤ speakingBoundaryState.speechOffThreshold
      ∧ (stateStep speakingBoundaryState (100, 7/1000)).isSpeaking = false)
    ∧ (runSamples (initAnalyzerState 0) ([(33, 8/1000)].take 1)).isSpeaking
        = (initAnalyzerState 0).isSpeaking := by
  have hle : smoothedOf speakingBoundaryState (7/1000)
      ≤ speakingBoundaryState.speechOffThreshold := by
    norm_num [smoothedOf, pushWindow, speakingBoundaryState, initAnalyzerState,
      SMOOTHING_WINDOW, SPEECH_THRESHOLD, SPEECH_OFF_MULTIPLIER]
  refine ⟨⟨hle, ?_⟩, ?_⟩
  · exact (hysteresis_step_characterization.1 speakingBoundaryState 100 (7/1000) rfl).mpr hle
  · refine hysteresis_step_characterization.2.2.2 (initAnalyzerState 0) [(33, 8/1000)]
      (fun v hv => absurd hv (List.not_mem_nil v)) ?_ 1
    intro p hp
    simp only [List.mem_singleton] at hp
    subst hp
    constructor
    · show SPEECH_THRESHOLD * SPEECH_OFF_MULTIPLIER < 8/1000
      norm_num [SPEECH_THRESHOLD, SPEECH_OFF_MULTIPLIER]
    · show (8 : ℚ)/1000 ≤ SPEECH_THRESHOLD
      norm_num [SPEECH_THRESHOLD]

/-! ## C3: scope of the calibration window -/

/-- C3 (amended).  A processed frame never changes the fixed thresholds,
and a frame that leaves the analyzer still calibrating accumulates its
sample into the noise-floor estimate and leaves all hesitation state
(count, timings, accumulated silence, open-run marker) untouched, firing
no onHesitation callback.  Speaking/silence classification and time
accumulation, however, do run during calibration (see the
counterexample). -/
theorem calibration_scope (s : AnalyzerState) (now : ℤ) (rms : ℚ) :
    ((stateStep s (now, rms)).speechOnThreshold = s.speechOnThreshold
      ∧ (stateStep s (now, rms)).speechOffThreshold = s.speechOffThreshold)
    ∧ ((stateStep s (now, rms)).isCalibrating = true →
        (stateStep s (now, rms)).calibrationSamples = s.calibrationSamples ++ [rms]
        ∧ (stateStep s (now, rms)).hesitationCount = s.hesitationCount
        ∧ (stateStep s (now, rms)).hesitationTimings = s.hesitationTimings
        ∧ (stateStep s (now, rms)).hesitationSilenceTime = s.hesitationSilenceTime
        ∧ (stateStep s (now, rms)).currentSilenceStart = s.currentSilenceStart
        ∧ (analyzeStep s now rms).2 = none) := by
  refine ⟨⟨rfl, rfl⟩, ?_⟩
  intro h
  have hrepr : (stateStep s (now, rms)).isCalibrating
      = (s.isCalibrating
          && !(s.isCalibrating && decide (CALIBRATION_DURATION ≤ now - s.calibrationStartTime)))
      := rfl
  rw [hrepr] at h
  have hcal : s.isCalibrating = true := by
    cases hc : s.isCalibrating
    · rw [hc] at h; simp at h
    · rfl
  rw [hcal] at h
  have hend : decide (CALIBRATION_DURATION ≤ now - s.calibrationStartTime) = false := by
    simpa using h
  refine ⟨?_, ?_, ?_, ?_, ?_, ?_⟩ <;>
    simp [stateStep, analyzeStep, hcal, hend]

/-- C3 counterexample.  The very first processed frame of a session is
inside the calibration window, yet a loud sample there flips the
classification to speaking, accrues its delta into totalSpeakingTime and
sets hasSpokeAtLeastOnce: calibration-window samples do affect the
speaking/silence classification, contrary to the claim. -/
theorem calibration_claim_counterexample :
    (stateStep (initAnalyzerState 0) (33, 1)).isCalibrating = true
    ∧ (initAnalyzerState 0).isSpeaking = false
    ∧ (initAnalyzerState 0).totalSpeakingTime = 0
    ∧ (stateStep (initAnalyzerState 0) (33, 1)).isSpeaking = true
    ∧ (stateStep (initAnalyzerState 0) (33, 1)).totalSpeakingTime = 33
    ∧ (stateStep (initAnalyzerState 0) (33, 1)).hasSpokeAtLeastOnce = true := by
  norm_num [stateStep, analyzeStep, initAnalyzerState, smoothedOf, pushWindow,
    SPEECH_THRESHOLD, SPEECH_OFF_MULTIPLIER, SMOOTHING_WINDOW, CALIBRATION_DURATION]

theorem calibration_scope_witness :
    (stateStep (initAnalyzerState 0) (33, 2/100)).isCalibrating = true
    ∧ (stateStep (initAnalyzerState 0) (33, 2/100)).hesitationCount
        = (initAnalyzerState 0).hesitationCount
    ∧ (analyzeStep (initAnalyzerState 0) 33 (2/100)).2 = none := by
  have hc : (stateStep (initAnalyzerState 0) (33, 2/100)).isCalibrating = true := by
    norm_num [stateStep, analyzeStep, initAnalyzerState, CALIBRATION_DURATION]
  have h := calibration_scope (initAnalyzerState 0) 33 (2/100)
  exact ⟨hc, (h.2 hc).2.1, (h.2 hc).2.2.2.2.2⟩

/-! ## C4: hesitation threshold boundary -/

/-- C4.  The onHesitation callback fires only on a frame where speech
resumes (previous state silent, new state speaking) - never at silence
start.  Moreover, after calibration, once speech has occurred, for a
frame that resumes speech and closes a silence run opened at cs: with
the default configuration (hesitationMinDuration 1800, microPauseFilter
300) a run of exactly 1799 ms records nothing and fires no callback,
while a run of exactly 1800 ms increments the count by one, appends
exactly one timing entry with that duration, and fires the callback with
the duration and new count at that moment. -/
theorem hesitation_threshold_boundary :
    (∀ (s : AnalyzerState) (now : ℤ) (rms : ℚ),
        ((analyzeStep s now rms).2).isSome = true →
        s.isSpeaking = false ∧ (analyzeStep s now rms).1.isSpeaking = true)
    ∧ (∀ (s : AnalyzerState) (cs : ℤ) (rms : ℚ),
        s.isCalibrating = false → s.hasSpokeAtLeastOnce = true → s.isSpeaking = false →
        s.currentSilenceStart = some cs →
        s.hesitationMinDuration = 1800 → s.microPauseFilter = 300 →
        s.speechOnThreshold < smoothedOf s rms →
        ((analyzeStep s (cs + 1799) rms).1.hesitationCount = s.hesitationCount
          ∧ (analyzeStep s (cs + 1799) rms).1.hesitationTimings = s.hesitationTimings
          ∧ (analyzeStep s (cs + 1799) rms).2 = none)
        ∧ ((analyzeStep s (cs + 1800) rms).1.hesitationCount = s.hesitationCount + 1
          ∧ (analyzeStep s (cs + 1800) rms).1.hesitationTimings
              = s.hesitationTimings ++ [(cs - s.sessionStartTime, 1800)]
          ∧ (analyzeStep s (cs + 1800) rms).2 = some ⟨1800, s.hesitationCount + 1⟩)) := by
  constructor
  · intro s now rms h
    cases hw : s.isSpeaking
    · cases hsp : decide (s.speechOnThreshold < smoothedOf s rms)
      · exfalso
        simp [analyzeStep, hw, hsp] at h
      · refine ⟨rfl, ?_⟩
        simp [analyzeStep, hw, hsp]
    · exfalso
      simp [analyzeStep, hw] at h
  · intro s cs rms hcalib hspoke hsil hcss hmd hmp hsm
    have hsp : decide (s.speechOnThreshold < smoothedOf s rms) = true := decide_eq_true hsm
    constructor
    · refine ⟨?_, ?_, ?_⟩ <;>
        norm_num [analyzeStep, hcalib, hspoke, hsil, hcss, hmd, hmp, hsp,
          add_sub_cancel_left]
    · refine ⟨?_, ?_, ?_⟩ <;>
        norm_num [analyzeStep, hcalib, hspoke, hsil, hcss, hmd, hmp, hsp,
          add_sub_cancel_left]

theorem hesitation_threshold_boundary_witness :
    ((analyzeStep hesWitnessState (2000 + 1799) 1).2 = none)
    ∧ ((analyzeStep hesWitnessState (2000 + 1800) 1).2
        = some ⟨1800, hesWitnessState.hesitationCount + 1⟩)
    ∧ ((analyzeStep hesWitnessState (2000 + 1800) 1).1.hesitationCount
        = hesWitnessState.hesitationCount + 1) := by
  have hsm : hesWitnessState.speechOnThreshold < smoothedOf hesWitnessState 1 := by
    norm_num [hesWitnessState, initAnalyzerState, smoothedOf, pushWindow,
      SMOOTHING_WINDOW, SPEECH_THRESHOLD]
  have h := hesitation_threshold_boundary.2 hesWitnessState 2000 1 rfl rfl rfl rfl rfl rfl hsm
  exact ⟨h.1.2.2, h.2.2.2, h.2.1⟩

/-! ## C8: no clamping of malformed samples or clock skew -/

/-- C8 (amended).  The per-frame step performs no input sanitization: the
delta now - lastFrameTime is credited as-is to exactly one of the two
totals even when it is negative (clock skew makes the corresponding
total decrease; the sum identity still holds), and the raw rms sample
enters the smoothing window unmodified.  The step is a total function,
so no error is propagated out of the per-sample path. -/
theorem negative_delta_unclamped (s : AnalyzerState) (now : ℤ) (rms : ℚ) :
    ((stateStep s (now, rms)).totalSpeakingTime + (stateStep s (now, rms)).totalSilenceTime
        = s.totalSpeakingTime + s.totalSilenceTime + (now - s.lastFrameTime))
    ∧ ((stateStep s (now, rms)).volumeSamples = pushWindow s.volumeSamples rms)
    ∧ ((stateStep s (now, rms)).lastFrameTime = now) :=
  ⟨(stateStep_totals s (now, rms)).1, rfl, rfl⟩

/-- C8 counterexample.  A frame whose timestamp lies 100 ms before the
previous frame (clock skew) is NOT clamped to a zero delta: the silence
total becomes -100 instead of staying 0; and a negative volume sample -1
is NOT treated as zero volume: it enters the smoothing window as -1.
This refutes the claimed clamping to safe defaults. -/
theorem clamping_claim_counterexample :
    ((stateStep (initAnalyzerState 1000) (900, 0)).totalSilenceTime = -100)
    ∧ ((stateStep (initAnalyzerState 1000) (900, 0)).totalSpeakingTime = 0)
    ∧ ((stateStep (initAnalyzerState 0) (33, -1)).volumeSamples = [-1]) := by
  norm_num [stateStep, analyzeStep, initAnalyzerState, smoothedOf, pushWindow,
    SPEECH_THRESHOLD, SPEECH_OFF_MULTIPLIER, SMOOTHING_WINDOW, CALIBRATION_DURATION]

/-! ## Helper lemmas for the upload retry loop -/

theorem uploadFrom_attempts_pos (ok : ℕ → Bool) :
    ∀ remaining attempt : ℕ, 1 ≤ (uploadFrom ok attempt remaining).attempts := by
  intro remaining
  induction remaining with
  | zero =>
    intro attempt
    by_cases h : ok attempt = true <;> simp [uploadFrom, h]
  | succ n ih =>
    intro attempt
    by_cases h : ok attempt = true <;> simp [uploadFrom, h]

theorem uploadFrom_outcome (ok : ℕ → Bool) :
    ∀ remaining attempt : ℕ,
    ((uploadFrom ok attempt remaining).success = true →
      (uploadFrom ok attempt remaining).uploadErrors = 0
      ∧ (uploadFrom ok attempt remaining).segmentEmissions = 1)
    ∧ ((uploadFrom ok attempt remaining).success = false →
      (uploadFrom ok attempt remaining).uploadErrors = 1
      ∧ (uploadFrom ok attempt remaining).segmentEmissions = 0
      ∧ (uploadFrom ok attempt remaining).attempts = remaining + 1)
    ∧ (uploadFrom ok attempt remaining).attempts ≤ remaining + 1 := by
  intro remaining
  induction remaining with
  | zero =>
    intro attempt
    by_cases h : ok attempt = true <;> simp [uploadFrom, h]
  | succ n ih =>
    intro attempt
    by_cases h : ok attempt = true
    · simp [uploadFrom, h]
    · have r := ih (attempt + 1)
      simp only [uploadFrom, h, Bool.false_eq_true, if_false]
      refine ⟨fun hs => r.1 hs, fun hs => ?_, ?_⟩
      · have hr := r.2.1 hs
        exact ⟨hr.1, hr.2.1, by omega⟩
      · have hr := r.2.2
        omega

theorem uploadFrom_backoffs (ok : ℕ → Bool) :
    ∀ remaining attempt : ℕ,
    (uploadFrom ok attempt remaining).backoffs
      = (List.range ((uploadFrom ok attempt remaining).attempts - 1)).map
          (fun i => ((attempt + i + 1 : ℕ) : ℤ) * 400) := by
  intro remaining
  induction remaining with
  | zero =>
    intro attempt
    by_cases h : ok attempt = true <;> simp [uploadFrom, h]
  | succ n ih =>
    intro attempt
    by_cases h : ok attempt = true
    · simp [uploadFrom, h]
    · simp only [uploadFrom, h, Bool.false_eq_true, if_false]
      obtain ⟨k, hk⟩ : ∃ k, (uploadFrom ok (attempt + 1) n).attempts = k + 1 :=
        ⟨(uploadFrom ok (attempt + 1) n).attempts - 1, by
          have := uploadFrom_attempts_pos ok n (attempt + 1)
          omega⟩
      rw [ih (attempt + 1), hk]
      simp only [Nat.add_sub_cancel, List.range_succ_eq_map, List.map_cons, List.map_map,
        List.cons.injEq]
      refine ⟨?_, ?_⟩
      · push_cast
        ring
      · refine List.map_congr_left ?_
        intro i _
        simp only [Function.comp_apply]
        push_cast
        ring

/-! ## C5: chunk upload retry policy and queue order -/

/-- C5.  For every chunk: the retry loop makes at most maxUploadRetries+1
fetch attempts (one initial attempt plus up to maxUploadRetries
retries); the sleeps between attempts are exactly 1*400, 2*400, ... ms
(linear backoff, one per performed retry, in order); response segments
are forwarded at most once, and exactly once iff some attempt succeeds;
exhausting all attempts drops the chunk, emits exactly one recoverable
server-upload-failed error and forwards no segments; and the queue drain
shifts chunks strictly in queue order, uploading every queued chunk
exactly once (a dropped chunk does not block its successors), so the
monotonic sequence numbers go out in order. -/
theorem uploadChunk_retry_policy (m : ℕ) (ok : ℕ → Bool) (q : List ChunkItem) :
    ((uploadChunk m ok).attempts ≤ m + 1)
    ∧ ((uploadChunk m ok).segmentEmissions ≤ 1)
    ∧ ((uploadChunk m ok).backoffs
        = (List.range ((uploadChunk m ok).attempts - 1)).map (fun i => ((i + 1 : ℕ) : ℤ) * 400))
    ∧ ((uploadChunk m ok).success = false →
        (uploadChunk m ok).uploadErrors = 1 ∧ (uploadChunk m ok).segmentEmissions = 0
        ∧ (uploadChunk m ok).attempts = m + 1)
    ∧ ((uploadChunk m ok).success = true →
        (uploadChunk m ok).uploadErrors = 0 ∧ (uploadChunk m ok).segmentEmissions = 1)
    ∧ ((drainQueue m q).map Prod.fst = q.map ChunkItem.sequence) := by
  have hout := uploadFrom_outcome ok m 0
  have hback := uploadFrom_backoffs ok m 0
  refine ⟨hout.2.2, ?_, ?_, fun h => hout.2.1 h, fun h => hout.1 h, ?_⟩
  · cases hs : (uploadChunk m ok).success
    · have h0 : (uploadChunk m ok).segmentEmissions = 0 := (hout.2.1 hs).2.1
      omega
    · have h1 : (uploadChunk m ok).segmentEmissions = 1 := (hout.1 hs).2
      omega
  · have hb : (uploadChunk m ok).backoffs
        = (List.range ((uploadChunk m ok).attempts - 1)).map
            (fun i => ((0 + i + 1 : ℕ) : ℤ) * 400) := hback
    rw [hb]
    refine List.map_congr_left ?_
    intro i _
    norm_num
  · induction q with
    | nil => rfl
    | cons it rest ihq => simp [drainQueue, ihq]

theorem uploadChunk_retry_policy_witness :
    ((uploadChunk 3 scenarioD_ok).success = true)
    ∧ ((uploadChunk 3 scenarioD_ok).uploadErrors = 0
        ∧ (uploadChunk 3 scenarioD_ok).segmentEmissions = 1)
    ∧ ((uploadChunk 3 alwaysFail).success = false)
    ∧ ((uploadChunk 3 alwaysFail).uploadErrors = 1
        ∧ (uploadChunk 3 alwaysFail).segmentEmissions = 0
        ∧ (uploadChunk 3 alwaysFail).attempts = 4)
    ∧ ((drainQueue 3 demoQueue).map Prod.fst = demoQueue.map ChunkItem.sequence) := by
  have hS : (uploadChunk 3 scenarioD_ok).success = true := by decide
  have hF : (uploadChunk 3 alwaysFail).success = false := by decide
  exact ⟨hS, (uploadChunk_retry_policy 3 scenarioD_ok []).2.2.2.2.1 hS, hF,
    (uploadChunk_retry_policy 3 alwaysFail []).2.2.2.1 hF,
    (uploadChunk_retry_policy 3 scenarioD_ok demoQueue).2.2.2.2.2⟩

/-! ## Helper lemmas for the engine error policy -/

theorem runErrors_not_browser (m : ℕ) :
    ∀ (codes : List ErrCode) (s : EngineState),
    s.providerType ≠ ProviderType.browser → runErrors m s codes = s := by
  intro codes
  induction codes with
  | nil => intro s _; rfl
  | cons c rest ih =>
    intro s hs
    have hstep : (handleErrorRun m true c s).2 = s := by
      simp [handleErrorRun, hs]
    simp only [runErrors, List.foldl_cons] at ih ⊢
    rw [hstep]
    exact ih s hs

theorem handleError_other_browser (k rst : ℕ) (sm : Bool) (sw : ℕ) (pa fa : Bool) :
    (handleErrorRun 3 true ErrCode.other
        ⟨ProviderType.browser, k, rst, sm, sw, pa, fa⟩).2
      = (if 3 ≤ k + 1 then
          (⟨ProviderType.server, k + 1, rst, sm, sw + 1, false, true⟩ : EngineState)
         else ⟨ProviderType.browser, k + 1, rst, sm, sw, pa, fa⟩) := by
  by_cases h : 3 ≤ k + 1 <;>
    simp [handleErrorRun, switchToServerRun, closeProviderRun, startServerRun, h]

theorem runErrors_other :
    ∀ (codes : List ErrCode), (∀ c ∈ codes, c = ErrCode.other) →
    ∀ (k rst : ℕ) (sm : Bool) (sw : ℕ), k < 3 →
    runErrors 3 ⟨ProviderType.browser, k, rst, sm, sw, true, false⟩ codes
      = (if k + codes.length < 3 then
          (⟨ProviderType.browser, k + codes.length, rst, sm, sw, true, false⟩ : EngineState)
         else ⟨ProviderType.server, 3, rst, sm, sw + 1, false, true⟩) := by
  intro codes
  induction codes with
  | nil =>
    intro _ k rst sm sw hk
    rw [if_pos (by simpa using hk)]
    rfl
  | cons c rest ih =>
    intro hcodes k rst sm sw hk
    have hc : c = ErrCode.other := hcodes c (List.mem_cons_self c rest)
    subst hc
    have hrest : ∀ c ∈ rest, c = ErrCode.other :=
      fun c hc => hcodes c (List.mem_cons_of_mem _ hc)
    simp only [runErrors, List.foldl_cons] at ih ⊢
    rw [handleError_other_browser k rst sm sw true false]
    by_cases h1 : 3 ≤ k + 1
    · rw [if_pos h1]
      have hserver := runErrors_not_browser 3 rest
        ⟨ProviderType.server, k + 1, rst, sm, sw + 1, false, true⟩ (by simp)
      simp only [runErrors] at hserver
      rw [hserver, if_neg (by simp; omega)]
      have : k + 1 = 3 := by omega
      rw [this]
    · rw [if_neg h1]
      rw [ih hrest (k + 1) rst sm sw (by omega)]
      by_cases h2 : k + 1 + rest.length < 3
      · rw [if_pos h2, if_pos (by simp; omega)]
        have : k + 1 + rest.length = k + (rest.length + 1) := by omega
        rw [this]
        simp
      · rw [if_neg h2, if_neg (by simp; omega)]

/-! ## C6: browser error escalation -/

/-- C6.  With maxBrowserErrors = 3, starting from a freshly started
browser provider: every recoverable (non-permission) error increments
the error counter while the browser provider is current (the counter
sticks at 3 once the switch happens and further errors are ignored);
exactly one switch to the fallback provider happens, and it happens
precisely when the number of recoverable errors reaches 3; the browser
restart budget is untouched by errors.  A single permission-denied
error (not-allowed or service-not-allowed) switches to the fallback
immediately, with the error counter still 0. -/
theorem browserError_escalation_policy :
    (∀ codes : List ErrCode, (∀ c ∈ codes, c = ErrCode.other) →
      (runErrors 3 browserReadyState codes).browserErrorCount = min codes.length 3
      ∧ (runErrors 3 browserReadyState codes).fallbackSwitches
          = (if 3 ≤ codes.length then 1 else 0)
      ∧ ((runErrors 3 browserReadyState codes).providerType = ProviderType.server
          ↔ 3 ≤ codes.length)
      ∧ (runErrors 3 browserReadyState codes).browserRestartCount = 0)
    ∧ (∀ code : ErrCode, code = ErrCode.notAllowed ∨ code = ErrCode.serviceNotAllowed →
        (handleErrorRun 3 true code browserReadyState).2
          = ⟨ProviderType.server, 0, 0, false, 1, false, true⟩) := by
  constructor
  · intro codes hcodes
    have h := runErrors_other codes hcodes 0 0 false 0 (by omega)
    have hb : browserReadyState
        = (⟨ProviderType.browser, 0, 0, false, 0, true, false⟩ : EngineState) := rfl
    rw [hb, h]
    by_cases hlen : 0 + codes.length < 3
    · rw [if_pos hlen]
      refine ⟨by simp; omega, ?_, ?_, rfl⟩
      · rw [if_neg (by omega)]
      · simp
        omega
    · rw [if_neg hlen]
      refine ⟨by simp; omega, ?_, ?_, rfl⟩
      · rw [if_pos (by omega)]
      · simp
        omega
  · intro code hc
    rcases hc with h | h <;> subst h <;> decide

theorem browserError_escalation_policy_witness :
    ((runErrors 3 browserReadyState [ErrCode.other, ErrCode.other, ErrCode.other]).providerType
        = ProviderType.server)
    ∧ ((runErrors 3 browserReadyState
          [ErrCode.other, ErrCode.other, ErrCode.other]).fallbackSwitches = 1)
    ∧ ((runErrors 3 browserReadyState [ErrCode.other, ErrCode.other]).providerType
        ≠ ProviderType.server)
    ∧ ((handleErrorRun 3 true ErrCode.notAllowed browserReadyState).2
        = ⟨ProviderType.server, 0, 0, false, 1, false, true⟩) := by
  have h3 := browserError_escalation_policy.1 [ErrCode.other, ErrCode.other, ErrCode.other]
    (by decide)
  have h2 := browserError_escalation_policy.1 [ErrCode.other, ErrCode.other] (by decide)
  refine ⟨h3.2.2.1.mpr (by norm_num), ?_, ?_, browserError_escalation_policy.2
    ErrCode.notAllowed (Or.inl rfl)⟩
  · have := h3.2.1
    simpa using this
  · intro hcon
    have := h2.2.2.1.mp hcon
    simp at this

/-! ## Helper lemmas for provider exclusivity -/

theorem engineInvB_not_both (s : EngineState) (h : engineInvB s = true) :
    (!(s.primaryActive && s.fallbackActive)) = true := by
  obtain ⟨pt, bec, brc, sm, fs, pa, fa⟩ := s
  cases pt <;> cases pa <;> cases fa <;> simp_all [engineInvB]

theorem switchToServerRun_inv (so : Bool) (s : EngineState) (h : engineInvB s = true) :
    ((switchToServerRun so s).1.all engineInvB = true)
    ∧ engineInvB (switchToServerRun so s).2 = true := by
  obtain ⟨pt, bec, brc, sm, fs, pa, fa⟩ := s
  cases pt <;> cases pa <;> cases fa <;> cases so <;>
    simp_all [switchToServerRun, closeProviderRun, startServerRun, engineInvB]

theorem engineStartRun_inv (pb bs bo asf so : Bool) (s : EngineState)
    (h : engineInvB s = true) (hidle : s.providerType = ProviderType.idle) :
    ((engineStartRun pb bs bo asf so s).1.all engineInvB = true)
    ∧ engineInvB (engineStartRun pb bs bo asf so s).2 = true := by
  obtain ⟨pt, bec, brc, sm, fs, pa, fa⟩ := s
  subst hidle
  cases pa <;> cases fa <;> cases pb <;> cases bs <;> cases bo <;> cases asf <;> cases so <;>
    simp_all [engineStartRun, startBrowserRun, startServerRun, closeProviderRun, engineInvB]

theorem handleErrorRun_inv (m : ℕ) (so : Bool) (code : ErrCode) (s : EngineState)
    (h : engineInvB s = true) :
    ((handleErrorRun m so code s).1.all engineInvB = true)
    ∧ engineInvB (handleErrorRun m so code s).2 = true := by
  obtain ⟨pt, bec, brc, sm, fs, pa, fa⟩ := s
  cases pt <;> cases code <;> cases pa <;> cases fa <;> cases so <;>
    (try simp_all [handleErrorRun, switchToServerRun, closeProviderRun, startServerRun,
      engineInvB]) <;>
    (try split_ifs) <;>
    simp_all [engineInvB]

theorem handleBrowserEndRun_inv (m : ℕ) (ro so : Bool) (s : EngineState)
    (h : engineInvB s = true) :
    ((handleBrowserEndRun m ro so s).1.all engineInvB = true)
    ∧ engineInvB (handleBrowserEndRun m ro so s).2 = true := by
  obtain ⟨pt, bec, brc, sm, fs, pa, fa⟩ := s
  cases pt <;> cases sm <;> cases ro <;> cases so <;> cases pa <;> cases fa <;>
    (try simp_all [handleBrowserEndRun, switchToServerRun, closeProviderRun, startServerRun,
      engineInvB]) <;>
    (try split_ifs) <;>
    simp_all [engineInvB]

theorem engineStopRun_inv (s : EngineState) (h : engineInvB s = true) :
    ((engineStopRun s).1.all engineInvB = true)
    ∧ engineInvB (engineStopRun s).2 = true := by
  obtain ⟨pt, bec, brc, sm, fs, pa, fa⟩ := s
  cases pt <;> cases pa <;> cases fa <;>
    simp_all [engineStopRun, closeProviderRun, engineInvB]

theorem execCmd_inv (cfg : EngineConfig) (s : EngineState) (c : EngineCmd)
    (h : engineInvB s = true)
    (hstart : ∀ pb bs bo asf so, c = EngineCmd.engineStart pb bs bo asf so →
        s.providerType = ProviderType.idle) :
    ((execCmd cfg s c).1.all engineInvB = true) ∧ engineInvB (execCmd cfg s c).2 = true := by
  cases c with
  | engineStart pb bs bo asf so =>
    exact engineStartRun_inv pb bs bo asf so s h (hstart pb bs bo asf so rfl)
  | providerError code so => exact handleErrorRun_inv cfg.maxBrowserErrors so code s h
  | browserEnded ro so => exact handleBrowserEndRun_inv cfg.maxBrowserRestarts ro so s h
  | switchServer so => exact switchToServerRun_inv so s h
  | engineStop => exact engineStopRun_inv s h

theorem runCmds_inv (cfg : EngineConfig) :
    ∀ (cmds : List EngineCmd) (s : EngineState), engineInvB s = true →
    startsGuarded cfg s cmds = true →
    ((runCmds cfg s cmds).1.all engineInvB = true)
    ∧ engineInvB (runCmds cfg s cmds).2 = true := by
  intro cmds
  induction cmds with
  | nil => intro s h _; exact ⟨rfl, h⟩
  | cons c rest ih =>
    intro s h hg
    simp only [startsGuarded, Bool.and_eq_true] at hg
    have hstart : ∀ pb bs bo asf so, c = EngineCmd.engineStart pb bs bo asf so →
        s.providerType = ProviderType.idle := by
      intro pb bs bo asf so hc
      subst hc
      exact of_decide_eq_true hg.1
    have hstep := execCmd_inv cfg s c h hstart
    have hrest := ih (execCmd cfg s c).2 hstep.2 hg.2
    simp only [runCmds, List.all_append, Bool.and_eq_true]
    exact ⟨⟨hstep.1, hrest.1⟩, hrest.2⟩

/-! ## C7: provider switch exclusivity -/

/-- C7.  Along every engine execution (any sequence of start, stop,
switch, provider-error and provider-end events, with start issued only
from the idle engine as its callers do), at no observable point are the
Primary (browser) provider and the Fallback (server) provider active at
once: every switch closes the outgoing provider - whose stop() marks it
inactive before returning - and only then creates and starts the
incoming provider.  The conjunct covers every intermediate state of
every operation trace as well as the final state. -/
theorem provider_exclusivity (cfg : EngineConfig) (cmds : List EngineCmd)
    (h : startsGuarded cfg initEngineState cmds = true) :
    ((runCmds cfg initEngineState cmds).1.all
        (fun st => !(st.primaryActive && st.fallbackActive)) = true)
    ∧ (!((runCmds cfg initEngineState cmds).2.primaryActive
          && (runCmds cfg initEngineState cmds).2.fallbackActive)) = true := by
  have hrun := runCmds_inv cfg cmds initEngineState rfl h
  constructor
  · rw [List.all_eq_true] at hrun ⊢
    · intro st hst
      exact engineInvB_not_both st (hrun.1 st hst)
  · exact engineInvB_not_both _ hrun.2

theorem provider_exclusivity_witness :
    (startsGuarded ⟨3, 4⟩ initEngineState demoCmds = true)
    ∧ ((runCmds ⟨3, 4⟩ initEngineState demoCmds).1.all
        (fun st => !(st.primaryActive && st.fallbackActive)) = true) :=
  ⟨by decide, (provider_exclusivity ⟨3, 4⟩ demoCmds (by decide)).1⟩

/-! ## C9: dedup idempotence of the accumulator -/

/-- C9.  Feeding the same final segment twice changes the accumulator
only on the first call: the repeated call returns false and leaves the
state - in particular the accepted final segments and getFinalText -
unchanged.  What is rejected is the dedup key, not object identity: any
final segment with non-empty trimmed text whose key (source, rounded
offsets, normalized text) equals that of an accepted segment is silently
ignored as well. -/
theorem dedup_idempotent (a : AccumulatorState) (seg : TranscriptSegment)
    (hfin : seg.isFinal = true) :
    ((addSegment (addSegment a seg).1 seg).2 = false
      ∧ (addSegment (addSegment a seg).1 seg).1 = (addSegment a seg).1
      ∧ getFinalText (addSegment (addSegment a seg).1 seg).1
          = getFinalText (addSegment a seg).1)
    ∧ (∀ seg2 : TranscriptSegment, seg2.isFinal = true → jsTrim seg2.text ≠ "" →
        dedupeKey seg2 = dedupeKey seg → (addSegment a seg).2 = true →
        (addSegment (addSegment a seg).1 seg2).2 = false
        ∧ (addSegment (addSegment a seg).1 seg2).1 = (addSegment a seg).1) := by
  by_cases htr : jsTrim seg.text = ""
  · constructor
    · refine ⟨?_, ?_, ?_⟩ <;> simp [addSegment, htr]
    · intro seg2 _ _ _ hacc
      exfalso
      simp [addSegment, htr] at hacc
  · by_cases hk : dedupeKey seg ∈ a.finalKeys
    · constructor
      · refine ⟨?_, ?_, ?_⟩ <;> simp [addSegment, htr, hfin, hk]
      · intro seg2 _ _ _ hacc
        exfalso
        simp [addSegment, htr, hfin, hk] at hacc
    · have hmem : dedupeKey seg ∈ a.finalKeys ++ [dedupeKey seg] := by simp
      constructor
      · refine ⟨?_, ?_, ?_⟩ <;> simp [addSegment, htr, hfin, hk, hmem]
      · intro seg2 hfin2 htr2 hkey _
        have hmem2 : dedupeKey seg2 ∈ a.finalKeys ++ [dedupeKey seg] := by simp [hkey]
        constructor <;> simp [addSegment, htr, hfin, hk, htr2, hfin2, hmem2]

theorem dedup_idempotent_witness :
    ((addSegment emptyAccumulator segA).2 = true)
    ∧ ((addSegment (addSegment emptyAccumulator segA).1 segA).2 = false)
    ∧ ((addSegment (addSegment emptyAccumulator segA).1 segA).1
        = (addSegment emptyAccumulator segA).1)
    ∧ ((addSegment (addSegment emptyAccumulator segA).1 segB).2 = false) := by
  have hacc : (addSegment emptyAccumulator segA).2 = true := by decide
  have hkey : dedupeKey segB = dedupeKey segA := by
    have hn : normalizeText " hello WORLD " = normalizeText "Hello  world" := by decide
    simp [dedupeKey, segA, segB, hn, jsRound]
    norm_num
  have h := dedup_idempotent emptyAccumulator segA rfl
  exact ⟨hacc, h.1.1, h.1.2.1, (h.2 segB rfl (by decide) hkey hacc).1⟩

/-! ## C10: accepting a final discards the pending partial -/

/-- C10.  Whenever a final segment is accepted (addSegment returns true),
the accumulator is left with no pending partial segment, so
getDisplayText coincides with getFinalText; and it stays that way under
any further final segments (accepted or rejected) - only a new non-final
segment can reintroduce a partial. -/
theorem final_discards_partial (a : AccumulatorState) (seg : TranscriptSegment)
    (hfin : seg.isFinal = true) (hacc : (addSegment a seg).2 = true) :
    (addSegment a seg).1.partialSegment = none
    ∧ getDisplayText (addSegment a seg).1 = getFinalText (addSegment a seg).1
    ∧ (∀ seg2 : TranscriptSegment, seg2.isFinal = true →
        (addSegment (addSegment a seg).1 seg2).1.partialSegment = none) := by
  by_cases htr : jsTrim seg.text = ""
  · exfalso
    simp [addSegment, htr] at hacc
  · by_cases hk : dedupeKey seg ∈ a.finalKeys
    · exfalso
      simp [addSegment, htr, hfin, hk] at hacc
    · have hstate : (addSegment a seg).1
          = ⟨a.finalSegments ++ [{ seg with text := jsTrim seg.text }],
             a.finalKeys ++ [dedupeKey seg], none⟩ := by
        simp [addSegment, htr, hfin, hk]
      have hpn : (addSegment a seg).1.partialSegment = none := by rw [hstate]
      refine ⟨hpn, ?_, ?_⟩
      · have hpt : getPartialText (addSegment a seg).1 = "" := by
          simp [getPartialText, hpn]
        simp only [getDisplayText, hpt]
        by_cases hft : getFinalText (addSegment a seg).1 = ""
        · simp [hft]
        · simp [hft]
      · intro seg2 hfin2
        rw [hstate]
        by_cases htr2 : jsTrim seg2.text = ""
        · simp [addSegment, htr2]
        · by_cases hk2 : dedupeKey seg2 ∈ a.finalKeys ++ [dedupeKey seg]
          · simp [addSegment, htr2, hfin2, hk2]
          · simp [addSegment, htr2, hfin2, hk2]

theorem final_discards_partial_witness :
    ((addSegment partialState segA).2 = true)
    ∧ (partialState.partialSegment ≠ none)
    ∧ ((addSegment partialState segA).1.partialSegment = none)
    ∧ (getDisplayText (addSegment partialState segA).1
        = getFinalText (addSegment partialState segA).1) := by
  have hacc : (addSegment partialState segA).2 = true := by decide
  have h := final_discards_partial partialState segA rfl hacc
  exact ⟨hacc, by decide, h.1, h.2.1⟩

end NoPause
